import Mathlib

/-!
Verification of the Shaman-1 ESP32 serial-to-HTTP forwarder sketches.

The repository holds two near-identical Arduino sketches:
  * the Noise variant (`src/unnamed/part_001`): reads a line
    `NOISE <duration_ms> <peak_dbfs>` from UART, parses it with `parseNOISE`,
    and POSTs a JSON body to `/noise`;
  * the State variant (`src/Tests_2.0/.../esp_to_api.ino`): reads a line,
    applies an LED side effect for recognized tokens, and POSTs a JSON body
    with the verbatim line as the `state` field.

Lines are embedded as `List Char`.  Arduino `String` operations (`trim`,
`startsWith`, `indexOf`, `substring`, `toInt`, `toFloat`) and the underlying
C library conversions (`atol`, `atof`) are modelled character-exactly, with
numeric values taken in `ℤ`/`ℚ` (the C code's `long`/`float`; decimal-to-
binary float rounding is abstracted by exact rational arithmetic).
The per-line behavior of each sketch's `loop` is embedded as the list of
observable effects (LED writes, Wi-Fi readiness check, HTTP POST with its
body, log classification) it performs, parameterized by the environment:
the epoch seconds sampled at send time and the return code of the POST.
-/

namespace Shaman

/-! ### C character classes (ctype `isspace` / `isdigit`) -/

/-- C `isspace`: space (32) or the control characters 9..13 (tab, newline,
vertical tab, form feed, carriage return). -/
def isSpaceC (c : Char) : Bool := c.toNat == 32 || (9 ≤ c.toNat && c.toNat ≤ 13)

/-- C `isdigit`: ASCII `'0'`..`'9'`. -/
def isDigitC (c : Char) : Bool := 48 ≤ c.toNat && c.toNat ≤ 57

/-- Numeric value of an ASCII digit character. -/
def digitValC (c : Char) : ℕ := c.toNat - 48

/-! ### C numeric string conversions (`atol`, `atof`), as used by
Arduino `String::toInt` and `String::toFloat` -/

/-- Take the maximal leading run of ASCII digits. -/
def spanDigits : List Char → List Char × List Char
  | [] => ([], [])
  | c :: cs =>
    if isDigitC c then
      let p := spanDigits cs
      (c :: p.1, p.2)
    else ([], c :: cs)

/-- Value of a digit string read most-significant first. -/
def charsVal (cs : List Char) : ℕ := cs.foldl (fun a c => 10 * a + digitValC c) 0

/-- Optional sign: `true` means negative; `'+'` and no sign mean positive. -/
def readSign (cs : List Char) : Bool × List Char :=
  match cs with
  | [] => (false, [])
  | c :: rest =>
    if c = '-' then (true, rest)
    else if c = '+' then (false, rest)
    else (false, c :: rest)

/-- C `atol` (Arduino `String::toInt`): skip leading whitespace, optional
sign, then the value of the maximal leading digit run (0 when there is
none). -/
def atolChars (cs : List Char) : ℤ :=
  let cs1 := cs.dropWhile isSpaceC
  let p := readSign cs1
  let q := spanDigits p.2
  (cond p.1 (-1) 1) * (charsVal q.1 : ℤ)

/-- Fractional part of `atof`: a `'.'` followed by a digit run. -/
def readFrac (cs : List Char) : List Char × List Char :=
  match cs with
  | [] => ([], [])
  | c :: rest => if c = '.' then spanDigits rest else ([], c :: rest)

/-- Exponent digits of `atof` after the `e`/`E` marker. -/
def readExpVal (cs : List Char) : ℤ :=
  let p := readSign cs
  let q := spanDigits p.2
  if q.1.isEmpty then 0 else (cond p.1 (-1) 1) * (charsVal q.1 : ℤ)

/-- Exponent of `atof`: `e` or `E` then an optionally signed digit run;
anything else contributes exponent 0. -/
def readExp (cs : List Char) : ℤ :=
  match cs with
  | [] => 0
  | c :: rest => if c = 'e' ∨ c = 'E' then readExpVal rest else 0

/-- C `atof` (Arduino `String::toFloat`), valued in `ℚ`: skip leading
whitespace, optional sign, integer digits, optional `.` + fraction digits,
optional exponent; 0 when no digits are found.  The value
`sign * (I + F / 10^|F|) * 10^ex` is assembled as one exact fraction. -/
def atofChars (cs : List Char) : ℚ :=
  let cs1 := cs.dropWhile isSpaceC
  let p := readSign cs1
  let ip := spanDigits p.2
  let fp := readFrac ip.2
  let ex := readExp fp.2
  let n : ℤ := (cond p.1 (-1) 1) * (charsVal ip.1 * 10 ^ fp.1.length + charsVal fp.1)
  let d : ℕ := 10 ^ fp.1.length
  if 0 ≤ ex then mkRat (n * 10 ^ ex.toNat) d else mkRat n (d * 10 ^ (-ex).toNat)

/-! ### Arduino `String` operations -/

/-- Arduino `String::trim`: strip `isspace` characters from both ends. -/
def trimA (cs : List Char) : List Char :=
  ((cs.dropWhile isSpaceC).reverse.dropWhile isSpaceC).reverse

/-- Arduino `String::indexOf(ch, fromIndex)` search kernel: first index `≥ i`
of `c` in the remaining characters. -/
def indexOfAux (c : Char) : List Char → ℕ → Option ℕ
  | [], _ => none
  | x :: xs, i => if x = c then some i else indexOfAux c xs (i + 1)

/-- Arduino `String::indexOf(ch, fromIndex)`: absolute index of the first
occurrence of `c` at or after `start`, `none` (C: `-1`) when absent. -/
def indexOfFrom (cs : List Char) (c : Char) (start : ℕ) : Option ℕ :=
  indexOfAux c (cs.drop start) start

/-- Arduino `String::substring(left, right)`: characters `[a, b)`. -/
def slice (cs : List Char) (a b : ℕ) : List Char := (cs.drop a).take (b - a)

/-- Decimal digits of a natural number (Arduino `String(long)` rendering). -/
def natToChars (n : ℕ) : List Char := Nat.toDigits 10 n

/-- Arduino `String(long)`: optional minus sign then decimal digits. -/
def intToChars (i : ℤ) : List Char :=
  if i < 0 then '-' :: natToChars i.natAbs else natToChars i.natAbs

/-- Arduino `String(float, 2)`: fixed-point rendering with two decimals,
rounding the magnitude to the nearest hundredth (half away from zero):
`n = ⌊|q| * 100 + 1/2⌋`, computed on the numerator/denominator as
`(|num| * 200 + den) / (2 * den)` in integer division. -/
def floatToChars2 (q : ℚ) : List Char :=
  let n : ℕ := (q.num.natAbs * 200 + q.den) / (2 * q.den)
  let ip := natToChars (n / 100)
  let f := n % 100
  let fp := if f < 10 then '0' :: natToChars f else natToChars f
  (if q.num < 0 then ['-'] else []) ++ ip ++ '.' :: fp

/-! ### The Noise-variant parser (`parseNOISE`, part_001 lines 60-69) -/

/-- The literal token the Noise line must start with. -/
def NOISE_TOK : List Char := "NOISE".data

/-- `parseNOISE` from `src/unnamed/part_001`:
`startsWith "NOISE"`, find the first two spaces, `toInt` the text between
them as the duration, `toFloat` everything after the second space as the
peak; succeed iff the duration is positive.  `some (dur, peak)` stands for
the C function returning `true` with these output parameters. -/
def parseNOISE (line : List Char) : Option (ℤ × ℚ) :=
  if NOISE_TOK.isPrefixOf line then
    match indexOfFrom line ' ' 0 with
    | none => none
    | some s1 =>
      match indexOfFrom line ' ' (s1 + 1) with
      | none => none
      | some s2 =>
        let dur := atolChars (slice line (s1 + 1) s2)
        let peak := atofChars (line.drop (s2 + 1))
        if 0 < dur then some (dur, peak) else none
  else none

/-- The duration field as the Noise sketch extracts it: `toInt` of the text
between the first and second space, 0 when fewer than two spaces exist
(the C locals stay 0). -/
def durField (line : List Char) : ℤ :=
  match indexOfFrom line ' ' 0 with
  | none => 0
  | some s1 =>
    match indexOfFrom line ' ' (s1 + 1) with
    | none => 0
    | some s2 => atolChars (slice line (s1 + 1) s2)

/-! ### JSON bodies (raw string concatenation, exactly as in the source) -/

/-- `DEVICE_ID` constant of the Noise sketch. -/
def DEVICE_ID_noise : List Char := "esp32-01".data

/-- Device id the State sketch passes to `postEvent`. -/
def DEVICE_ID_state : List Char := "esp32-s3-01".data

/-- Body built by `postNoise` (part_001 lines 88-93): raw concatenation,
fields in source order, epoch `t` sampled at send time. -/
def noiseBody (dur : ℤ) (peak : ℚ) (t : ℤ) : List Char :=
  "\x7b".data ++ "\"device_id\":\"".data ++ DEVICE_ID_noise ++ "\",".data
    ++ "\"duration_ms\":".data ++ intToChars dur ++ ",".data
    ++ "\"peak_dbfs\":".data ++ floatToChars2 peak ++ ",".data
    ++ "\"esp_epoch\":".data ++ intToChars t
    ++ "\x7d".data

/-- Body built by `postEvent` (esp_to_api.ino lines 56-58): raw
concatenation with the message spliced in verbatim, no escaping. -/
def stateBody (msg : List Char) (t : ℤ) : List Char :=
  "\x7b\"device_id\":\"".data ++ DEVICE_ID_state
    ++ "\",\"state\":\"".data ++ msg
    ++ "\",\"esp_epoch\":".data ++ intToChars t ++ "\x7d".data

/-! ### Per-line loop behavior as effect traces -/

/-- Observable effects of one `loop` iteration, in program order. -/
inductive Effect where
  /-- `led_on()` (digitalWrite HIGH). -/
  | ledOn
  /-- `led_off()`. -/
  | ledOff
  /-- `ensureWifi()` readiness check at the head of the post helper. -/
  | ensureWifi
  /-- `http.POST(body)` attempt with the exact body submitted. -/
  | post (body : List Char)
  /-- The Noise sketch's "could not parse line" warning. -/
  | logWarn
  /-- The success log branch (`code > 0 && code < 400`). -/
  | logOk
  /-- The failure log branch. -/
  | logErr
deriving DecidableEq, Repr

/-- Success test both sketches apply to the POST return code:
`code > 0 && code < 400`. -/
def classifyOk (code : ℤ) : Bool := decide (0 < code ∧ code < 400)

/-- Effects of `postNoise dur peak` with epoch `t`: Wi-Fi gate then the
POST attempt with the body it builds. -/
def postNoiseEffects (dur : ℤ) (peak : ℚ) (t : ℤ) : List Effect :=
  [Effect.ensureWifi, Effect.post (noiseBody dur peak t)]

/-- Effects of `postEvent device_id msg` with epoch `t`. -/
def postEventEffects (msg : List Char) (t : ℤ) : List Effect :=
  [Effect.ensureWifi, Effect.post (stateBody msg t)]

/-- One iteration of the Noise sketch's `loop` (part_001 lines 117-140) on a
line `raw` read from the UART, with send-time epoch `t` and POST return
code `code`: trim; drop empty lines silently; warn and drop lines
`parseNOISE` rejects; otherwise LED on, post, classify, LED off. -/
def noiseLoopStep (raw : List Char) (t code : ℤ) : List Effect :=
  let line := trimA raw
  if line = [] then []
  else
    match parseNOISE line with
    | none => [Effect.logWarn]
    | some dp =>
      Effect.ledOn :: postNoiseEffects dp.1 dp.2 t
        ++ [if classifyOk code then Effect.logOk else Effect.logErr]
        ++ [Effect.ledOff]

/-- One iteration of the State sketch's `loop` (esp_to_api.ino lines 84-103)
on a line `raw`: trim; LED side effect on the recognized tokens; always
post the trimmed message; classify the return code.  There is no
empty-line guard in this sketch. -/
def stateLoopStep (raw : List Char) (t code : ℤ) : List Effect :=
  let msg := trimA raw
  (if msg = "LED_ON".data then [Effect.ledOn] else [])
    ++ (if msg = "LED_OFF".data then [Effect.ledOff] else [])
    ++ postEventEffects msg t
    ++ [if classifyOk code then Effect.logOk else Effect.logErr]

/-- The POST bodies submitted in an effect trace, in order. -/
def postsOf (effs : List Effect) : List (List Char) :=
  effs.filterMap fun e =>
    match e with
    | Effect.post b => some b
    | _ => none

/-! ### `ensureWifi` (both sketches, identical): poll-until-associated -/

/-- Polling kernel of `ensureWifi`'s `while` loop: read the status stream at
successive indices until it reports associated; `fuel` bounds how many
further reads this finite approximation may make. -/
def ensureWifiAux (status : ℕ → Bool) : ℕ → ℕ → Option ℕ
  | i, 0 => if status i then some i else none
  | i, fuel + 1 => if status i then some i else ensureWifiAux status (i + 1) fuel

/-- `ensureWifi` over a stream of Wi-Fi status reads: return at once when
read 0 is associated, otherwise poll (with a fixed 250 ms delay between
reads) until some read succeeds.  `some k` means the function returned
after observing association at read `k`; `none` means it was still inside
the unbounded `while` after `fuel` further reads. -/
def ensureWifiPolls (status : ℕ → Bool) (fuel : ℕ) : Option ℕ :=
  if status 0 then some 0 else ensureWifiAux status 1 fuel

/-! ### A minimal JSON reader

Modelled from the spec: the receiving API server is an external
collaborator "expected to ... parse the fixed JSON shape"; no JSON decoder
exists under `src/`.  This is standard JSON for the flat objects at hand:
an object of string/number members, with full string-escape handling. -/

/-- Hexadecimal digit value for `\u` escapes. -/
def hexValC (c : Char) : Option ℕ :=
  if 48 ≤ c.toNat ∧ c.toNat ≤ 57 then some (c.toNat - 48)
  else if 97 ≤ c.toNat ∧ c.toNat ≤ 102 then some (c.toNat - 87)
  else if 65 ≤ c.toNat ∧ c.toNat ≤ 70 then some (c.toNat - 55)
  else none

/-- Read a JSON string body after its opening quote: returns the decoded
characters and the input after the closing quote. -/
def jStringAux : List Char → Option (List Char × List Char)
  | [] => none
  | '"' :: rest => some ([], rest)
  | '\\' :: '"' :: r => (jStringAux r).map fun p => ('"' :: p.1, p.2)
  | '\\' :: '\\' :: r => (jStringAux r).map fun p => ('\\' :: p.1, p.2)
  | '\\' :: '/' :: r => (jStringAux r).map fun p => ('/' :: p.1, p.2)
  | '\\' :: 'b' :: r => (jStringAux r).map fun p => (Char.ofNat 8 :: p.1, p.2)
  | '\\' :: 'f' :: r => (jStringAux r).map fun p => (Char.ofNat 12 :: p.1, p.2)
  | '\\' :: 'n' :: r => (jStringAux r).map fun p => ('\n' :: p.1, p.2)
  | '\\' :: 'r' :: r => (jStringAux r).map fun p => (Char.ofNat 13 :: p.1, p.2)
  | '\\' :: 't' :: r => (jStringAux r).map fun p => ('\t' :: p.1, p.2)
  | '\\' :: 'u' :: a :: b :: c :: d :: r =>
    match hexValC a, hexValC b, hexValC c, hexValC d with
    | some ha, some hb, some hc, some hd =>
      (jStringAux r).map fun p => (Char.ofNat (((ha * 16 + hb) * 16 + hc) * 16 + hd) :: p.1, p.2)
    | _, _, _, _ => none
  | '\\' :: _ => none
  | c :: rest => (jStringAux rest).map fun p => (c :: p.1, p.2)

/-- JSON whitespace skipping. -/
def skipWs (cs : List Char) : List Char :=
  cs.dropWhile fun c => c = ' ' || c = '\t' || c = '\n' || c = Char.ofNat 13

/-- A JSON number (integer or decimal; the bodies at hand use no
exponents). -/
def jNumber (cs : List Char) : Option (ℚ × List Char) :=
  let sp := match cs with
    | '-' :: r => (true, r)
    | _ => (false, cs)
  match spanDigits sp.2 with
  | ([], _) => none
  | (ids, cs2) =>
    match cs2 with
    | '.' :: r =>
      match spanDigits r with
      | ([], _) => none
      | (fds, cs3) =>
        some (mkRat ((cond sp.1 (-1) 1) * (charsVal ids * 10 ^ fds.length + charsVal fds))
          (10 ^ fds.length), cs3)
    | _ => some (mkRat ((cond sp.1 (-1) 1) * charsVal ids) 1, cs2)

/-- JSON values appearing in the fixed flat bodies: strings and numbers. -/
inductive JVal where
  /-- A JSON string with its decoded content. -/
  | jstr (s : List Char)
  /-- A JSON number. -/
  | jnum (q : ℚ)
deriving DecidableEq, Repr

/-- Parse one JSON value (string or number). -/
def jValue (cs : List Char) : Option (JVal × List Char) :=
  match skipWs cs with
  | '"' :: r => (jStringAux r).map fun p => (JVal.jstr p.1, p.2)
  | cs2 => (jNumber cs2).map fun p => (JVal.jnum p.1, p.2)

/-- Parse a nonempty comma-separated member list `"key": value, ...`. -/
def jMembers : ℕ → List Char → Option (List (List Char × JVal) × List Char)
  | 0, _ => none
  | fuel + 1, cs =>
    match skipWs cs with
    | '"' :: r =>
      match jStringAux r with
      | none => none
      | some (key, r1) =>
        match skipWs r1 with
        | ':' :: r2 =>
          match jValue r2 with
          | none => none
          | some (v, r3) =>
            match skipWs r3 with
            | ',' :: r4 => (jMembers fuel r4).map fun p => ((key, v) :: p.1, p.2)
            | r4 => some ([(key, v)], r4)
        | _ => none
    | _ => none

/-- Parse a complete JSON document consisting of one flat object; `none`
when the text is not such a document. -/
def jParseObj (cs : List Char) : Option (List (List Char × JVal)) :=
  match skipWs cs with
  | '\x7b' :: r =>
    match skipWs r with
    | '\x7d' :: r2 => if (skipWs r2).isEmpty then some [] else none
    | r1 =>
      match jMembers (r1.length + 1) r1 with
      | none => none
      | some (ms, rest) =>
        match skipWs rest with
        | '\x7d' :: r2 => if (skipWs r2).isEmpty then some ms else none
        | _ => none
  | _ => none

/-! ### Spec-side characterizations used by individual claims -/

/-- A rendered decimal literal: optional minus sign, integer digits, and an
optional fraction part. -/
def renderDec (neg : Bool) (ics fcs : List Char) : List Char :=
  (cond neg ['-'] []) ++ ics ++ (if fcs.isEmpty then [] else '.' :: fcs)

/-- Mathematical value of a rendered decimal literal. -/
def decValue (neg : Bool) (ics fcs : List Char) : ℚ :=
  (cond neg (-1) 1) * ((charsVal ics : ℚ) + (charsVal fcs : ℚ) / 10 ^ fcs.length)

/-- Acceptance condition for Noise lines in the spec's own terms: the line's
first five characters are `NOISE`, it contains at least two space
characters, and the text between the first and second space has a positive
leading-integer (`toInt`) parse. -/
def specAccepts (line : List Char) : Prop :=
  NOISE_TOK.isPrefixOf line = true ∧ 2 ≤ line.count ' ' ∧ 0 < durField line

/-! ## Helper lemmas -/

/-- A digit character differs from any non-digit character. -/
theorem ne_of_isDigitC {c c0 : Char} (h : isDigitC c = true) (h0 : isDigitC c0 = false) :
    c ≠ c0 := by
  intro he; subst he; rw [h] at h0; cases h0

/-- Digits are not whitespace. -/
theorem isSpaceC_of_isDigitC {c : Char} (h : isDigitC c = true) : isSpaceC c = false := by
  simp [isDigitC] at h
  simp [isSpaceC]
  omega

/-- `spanDigits` consumes exactly a leading all-digit block when what follows
does not start with a digit. -/
theorem spanDigits_append {ds rest : List Char} (hd : ∀ c ∈ ds, isDigitC c = true)
    (hr : ∀ c, rest.head? = some c → isDigitC c = false) :
    spanDigits (ds ++ rest) = (ds, rest) := by
  induction ds with
  | nil =>
    simp only [List.nil_append]
    match rest, hr with
    | [], _ => rfl
    | c :: rs, hr => simp [spanDigits, hr c rfl]
  | cons c cs ih =>
    have hc := hd c (List.mem_cons_self c cs)
    simp [spanDigits, hc, ih (fun x hx => hd x (List.mem_cons_of_mem c hx))]

/-- `atol` of a pure digit string is its decimal value. -/
theorem atolChars_digits {ds : List Char} (hd : ∀ c ∈ ds, isDigitC c = true) :
    atolChars ds = (charsVal ds : ℤ) := by
  match ds, hd with
  | [], _ => rfl
  | c :: cs, hd =>
    have hc := hd c (List.mem_cons_self c cs)
    have hsp : isSpaceC c = false := isSpaceC_of_isDigitC hc
    have h1 : c ≠ '-' := ne_of_isDigitC hc (by decide)
    have h2 : c ≠ '+' := ne_of_isDigitC hc (by decide)
    have hspan : spanDigits (c :: cs) = (c :: cs, []) := by
      have := @spanDigits_append (c :: cs) [] hd (by simp)
      simpa using this
    simp [atolChars, List.dropWhile_cons, hsp, readSign, h1, h2, hspan]

/-- `dropWhile isSpaceC` is the identity on lists with a non-space head. -/
theorem dropWhile_nospace {c : Char} {t : List Char} (h : isSpaceC c = false) :
    (c :: t).dropWhile isSpaceC = c :: t := by
  simp [List.dropWhile_cons, h]

/-- `readSign` consumes a leading minus sign. -/
theorem readSign_neg {t : List Char} : readSign ('-' :: t) = (true, t) := by
  simp [readSign]

/-- `readSign` leaves input without a sign character untouched. -/
theorem readSign_other {c : Char} {t : List Char} (h1 : c ≠ '-') (h2 : c ≠ '+') :
    readSign (c :: t) = (false, c :: t) := by
  simp [readSign, h1, h2]

/-- `atof` of a rendered decimal literal, followed by nothing or by a
space-led trailer, is the literal's exact rational value. -/
theorem atofChars_render {neg : Bool} {ics fcs junk : List Char}
    (hi : ∀ c ∈ ics, isDigitC c = true) (hf : ∀ c ∈ fcs, isDigitC c = true)
    (hne : ics ≠ []) (hj : junk = [] ∨ ∃ j, junk = ' ' :: j) :
    atofChars (renderDec neg ics fcs ++ junk) = decValue neg ics fcs := by
  have hjh : ∀ c, junk.head? = some c → isDigitC c = false := by
    rcases hj with rfl | ⟨j, rfl⟩
    · simp
    · intro c hc
      simp only [List.head?_cons, Option.some.injEq] at hc
      subst hc; decide
  have hfr : readFrac ((if fcs.isEmpty then [] else '.' :: fcs) ++ junk) = (fcs, junk) := by
    cases fcs with
    | nil =>
      rcases hj with rfl | ⟨j, rfl⟩
      · simp [readFrac]
      · simp [readFrac]
    | cons f fs =>
      show readFrac ('.' :: ((f :: fs) ++ junk)) = (f :: fs, junk)
      rw [show readFrac ('.' :: ((f :: fs) ++ junk)) = spanDigits ((f :: fs) ++ junk) from by
        simp [readFrac]]
      exact spanDigits_append hf hjh
  have hexp : readExp junk = 0 := by
    rcases hj with rfl | ⟨j, rfl⟩
    · rfl
    · simp [readExp]
  have htail : ∀ c, ((if fcs.isEmpty then [] else '.' :: fcs) ++ junk).head? = some c →
      isDigitC c = false := by
    cases fcs with
    | nil => simpa using hjh
    | cons f fs =>
      intro c hc
      simp only [List.isEmpty_cons, Bool.false_eq_true, if_false, List.cons_append,
        List.head?_cons, Option.some.injEq] at hc
      subst hc; decide
  have hspan := spanDigits_append hi htail
  obtain ⟨c0, ics', hics⟩ := List.exists_cons_of_ne_nil hne
  have hc0 : isDigitC c0 = true := hi c0 (by rw [hics]; exact List.mem_cons_self c0 ics')
  have h10 : ((10 : ℚ)) ^ fcs.length ≠ 0 := by positivity
  cases neg with
  | true =>
    have harg : renderDec true ics fcs ++ junk
        = '-' :: (ics ++ ((if fcs.isEmpty then [] else '.' :: fcs) ++ junk)) := by
      simp [renderDec, List.append_assoc]
    rw [harg]
    simp only [atofChars]
    rw [dropWhile_nospace (by decide), readSign_neg]
    simp only []
    rw [hspan]
    simp only []
    rw [hfr]
    simp only []
    rw [hexp]
    simp only [decValue]
    norm_num [Rat.mkRat_eq_div]
    field_simp
  | false =>
    have harg : renderDec false ics fcs ++ junk
        = ics ++ ((if fcs.isEmpty then [] else '.' :: fcs) ++ junk) := by
      simp [renderDec, List.append_assoc]
    rw [harg]
    simp only [atofChars]
    rw [show (ics ++ ((if fcs.isEmpty then [] else '.' :: fcs) ++ junk)).dropWhile isSpaceC
        = ics ++ ((if fcs.isEmpty then [] else '.' :: fcs) ++ junk) from by
      rw [hics]; exact dropWhile_nospace (isSpaceC_of_isDigitC hc0)]
    rw [show readSign (ics ++ ((if fcs.isEmpty then [] else '.' :: fcs) ++ junk))
        = (false, ics ++ ((if fcs.isEmpty then [] else '.' :: fcs) ++ junk)) from by
      rw [hics]
      exact readSign_other (ne_of_isDigitC hc0 (by decide)) (ne_of_isDigitC hc0 (by decide))]
    simp only []
    rw [hspan]
    simp only []
    rw [hfr]
    simp only []
    rw [hexp]
    simp only [decValue]
    norm_num [Rat.mkRat_eq_div]
    field_simp

/-- The search kernel finds the separator right after a block it does not
occur in. -/
theorem indexOfAux_append {c : Char} {l : List Char} (r : List Char) (h : c ∉ l) (i : ℕ) :
    indexOfAux c (l ++ c :: r) i = some (i + l.length) := by
  induction l generalizing i with
  | nil => simp [indexOfAux]
  | cons x xs ih =>
    have hx : x ≠ c := fun he => h (he ▸ List.mem_cons_self x xs)
    have h' : c ∉ xs := fun hm => h (List.mem_cons_of_mem x hm)
    simp [indexOfAux, hx, ih h']
    omega

/-- The search fails exactly on lists not containing the character. -/
theorem indexOfAux_none_iff {c : Char} {cs : List Char} (i : ℕ) :
    indexOfAux c cs i = none ↔ c ∉ cs := by
  induction cs generalizing i with
  | nil => simp [indexOfAux]
  | cons x xs ih =>
    by_cases hx : x = c
    · subst hx; simp [indexOfAux]
    · simp [indexOfAux, hx, ih (i + 1)]
      exact fun _ => Ne.symm hx

/-- A successful search splits the list at the first occurrence. -/
theorem indexOfAux_some {c : Char} {cs : List Char} {i j : ℕ}
    (h : indexOfAux c cs i = some j) :
    ∃ l r, cs = l ++ c :: r ∧ c ∉ l ∧ j = i + l.length := by
  induction cs generalizing i with
  | nil => cases h
  | cons x xs ih =>
    by_cases hx : x = c
    · subst hx
      simp [indexOfAux] at h
      exact ⟨[], xs, rfl, by simp, by simp; omega⟩
    · simp [indexOfAux, hx] at h
      obtain ⟨l, r, rfl, hnl, hj⟩ := ih h
      refine ⟨x :: l, r, rfl, ?_, by simp; omega⟩
      simp [List.mem_cons, hnl]
      exact Ne.symm hx

/-- Dropping past a separator lands right after it. -/
theorem drop_after_sep {l r : List Char} (c : Char) :
    (l ++ c :: r).drop (l.length + 1) = r := by
  rw [show l ++ c :: r = (l ++ [c]) ++ r by simp,
    show l.length + 1 = (l ++ [c]).length by simp]
  exact List.drop_left _ _

/-- Taking up to a separator yields the block before it. -/
theorem take_before_sep {l r : List Char} (c : Char) :
    (l ++ c :: r).take l.length = l :=
  List.take_left l (c :: r)

/-- `parseNOISE` succeeds exactly on the lines described by `specAccepts`:
`NOISE`-prefixed, holding at least two spaces, with a positive `toInt` of
the text between the first two spaces. -/
theorem parseNOISE_isSome_iff (line : List Char) :
    (parseNOISE line).isSome = true ↔ specAccepts line := by
  by_cases hpre : NOISE_TOK.isPrefixOf line = true
  case neg =>
    have hpre' : NOISE_TOK.isPrefixOf line = false := by
      cases hb : NOISE_TOK.isPrefixOf line
      · rfl
      · exact absurd hb hpre
    simp [parseNOISE, specAccepts, hpre']
  case pos =>
    cases h1 : indexOfFrom line ' ' 0 with
    | none =>
      have hnotin : ' ' ∉ line := by
        have := (@indexOfAux_none_iff ' ' (line.drop 0) 0)
        simp only [List.drop_zero] at this
        exact this.mp h1
      have hcount : line.count ' ' = 0 := List.count_eq_zero.mpr hnotin
      simp [parseNOISE, specAccepts, hpre, h1, hcount]
    | some s1 =>
      obtain ⟨l, r, hline, hnl, hs1⟩ := indexOfAux_some (by simpa [indexOfFrom] using h1)
      cases h2 : indexOfFrom line ' ' (s1 + 1) with
      | none =>
        have hdrop : line.drop (s1 + 1) = r := by
          rw [hline, hs1, show 0 + l.length + 1 = l.length + 1 by omega]
          exact drop_after_sep ' '
        have hnotin : ' ' ∉ r := by
          have := (@indexOfAux_none_iff ' ' (line.drop (s1 + 1)) (s1 + 1)).mp
            (by simpa [indexOfFrom] using h2)
          rwa [hdrop] at this
        have hcount : line.count ' ' = 1 := by
          rw [hline]
          simp [List.count_append, List.count_cons, List.count_eq_zero.mpr hnl,
            List.count_eq_zero.mpr hnotin]
        simp [parseNOISE, specAccepts, hpre, h1, h2, hcount]
      | some s2 =>
        have hdrop : line.drop (s1 + 1) = r := by
          rw [hline, hs1, show 0 + l.length + 1 = l.length + 1 by omega]
          exact drop_after_sep ' '
        have h2' : indexOfAux ' ' r (s1 + 1) = some s2 := by
          have h := h2
          simp only [indexOfFrom] at h
          rwa [hdrop] at h
        obtain ⟨l2, r2, hr, hnl2, hs2⟩ := indexOfAux_some h2'
        have hcount : 2 ≤ line.count ' ' := by
          rw [hline, hr]
          simp [List.count_append, List.count_cons]
          omega
        have hdur : durField line = atolChars (slice line (s1 + 1) s2) := by
          simp [durField, h1, h2]
        by_cases hpos : 0 < atolChars (slice line (s1 + 1) s2)
        · simp [parseNOISE, specAccepts, hpre, h1, h2, hpos, hcount, hdur]
        · simp [parseNOISE, specAccepts, hpre, h1, h2, hpos, hdur]

/-- The space separator never occurs inside a digit block. -/
theorem space_not_mem_digits {ds : List Char} (hd : ∀ c ∈ ds, isDigitC c = true) :
    ' ' ∉ ds := by
  intro hm
  have := hd ' ' hm
  cases this

/-! ## Claim theorems -/

/-- Claim C1: for every well-formed Noise line `NOISE <d> <p>` with `d` a
positive integer (given by its digits `dcs`) and `p` a possibly signed
decimal (sign `neg`, integer digits `ics`, fraction digits `fcs`),
`parseNOISE` succeeds and returns the duration `d` and the exact rational
value of `p` — even when a third non-numeric field follows a further
space (`junk`). -/
theorem parseNOISE_wellformed (dcs ics fcs junk : List Char) (neg : Bool)
    (hd : ∀ c ∈ dcs, isDigitC c = true) (hi : ∀ c ∈ ics, isDigitC c = true)
    (hf : ∀ c ∈ fcs, isDigitC c = true) (hne : ics ≠ [])
    (hpos : 0 < charsVal dcs) (hj : junk = [] ∨ ∃ j, junk = ' ' :: j) :
    parseNOISE (NOISE_TOK ++ ' ' :: (dcs ++ ' ' :: (renderDec neg ics fcs ++ junk)))
      = some ((charsVal dcs : ℤ), decValue neg ics fcs) := by
  set tail := renderDec neg ics fcs ++ junk with htail
  set line := NOISE_TOK ++ ' ' :: (dcs ++ ' ' :: tail) with hline
  have hpre : NOISE_TOK.isPrefixOf line = true := by
    rw [hline]
    simp [List.isPrefixOf_iff_prefix]
  have h1 : indexOfFrom line ' ' 0 = some 5 := by
    rw [hline]
    simp only [indexOfFrom, List.drop_zero]
    have := indexOfAux_append (c := ' ') (l := NOISE_TOK) (dcs ++ ' ' :: tail) (by decide) 0
    simpa using this
  have hdrop6 : line.drop 6 = dcs ++ ' ' :: tail := by
    rw [hline]
    rfl
  have h2 : indexOfFrom line ' ' 6 = some (6 + dcs.length) := by
    simp only [indexOfFrom, hdrop6]
    exact indexOfAux_append tail (space_not_mem_digits hd) 6
  have hslice : slice line 6 (6 + dcs.length) = dcs := by
    simp only [slice, hdrop6, show 6 + dcs.length - 6 = dcs.length by omega]
    exact take_before_sep ' '
  have hdrop2 : line.drop (6 + dcs.length + 1) = tail := by
    rw [show 6 + dcs.length + 1 = 6 + (dcs.length + 1) by omega,
      ← List.drop_drop, hdrop6]
    exact drop_after_sep ' '
  have hdur : atolChars (slice line 6 (6 + dcs.length)) = (charsVal dcs : ℤ) := by
    rw [hslice]; exact atolChars_digits hd
  have hpos' : (0 : ℤ) < (charsVal dcs : ℤ) := by exact_mod_cast hpos
  have hpeak : atofChars (line.drop (6 + dcs.length + 1)) = decValue neg ics fcs := by
    rw [hdrop2, htail]
    exact atofChars_render hi hf hne hj
  rw [parseNOISE, if_pos hpre, h1]
  simp only []
  rw [show (5 : ℕ) + 1 = 6 from rfl, h2]
  simp only []
  rw [hdur, hpeak, if_pos hpos']

/-- Witness for C1 at the concrete line `NOISE 12 -3.5 xyz`. -/
theorem parseNOISE_wellformed_witness :
    parseNOISE (NOISE_TOK ++ ' ' ::
        ("12".data ++ ' ' :: (renderDec true "3".data "5".data ++ (' ' :: "xyz".data))))
      = some ((charsVal "12".data : ℤ), decValue true "3".data "5".data) :=
  parseNOISE_wellformed ("12".data) ("3".data) ("5".data) (' ' :: "xyz".data) true
    (by decide) (by decide) (by decide) (by decide) (by decide)
    (Or.inr ⟨"xyz".data, rfl⟩)

/-- Claim C2: a trimmed line that does not start with `NOISE`, or whose
duration field has a non-positive `toInt` parse (covering non-numeric
fields, which parse to 0), is rejected by `parseNOISE`, and the Noise
sketch's loop performs no HTTP POST for it. -/
theorem noise_reject_no_post (raw : List Char) (t code : ℤ)
    (h : NOISE_TOK.isPrefixOf (trimA raw) = false ∨ durField (trimA raw) ≤ 0) :
    parseNOISE (trimA raw) = none ∧ postsOf (noiseLoopStep raw t code) = [] := by
  have hnacc : ¬ specAccepts (trimA raw) := by
    rintro ⟨h1, h2, h3⟩
    rcases h with h | h
    · rw [h] at h1; cases h1
    · omega
  have hnone : parseNOISE (trimA raw) = none := by
    cases hp : parseNOISE (trimA raw) with
    | none => rfl
    | some v =>
      exact absurd ((parseNOISE_isSome_iff (trimA raw)).mp (by simp [hp])) hnacc
  refine ⟨hnone, ?_⟩
  by_cases he : trimA raw = []
  · simp [noiseLoopStep, he, postsOf]
  · simp [noiseLoopStep, he, hnone, postsOf]

/-- Witness for C2 at the spec's own example line `NOISE abc -5`. -/
theorem noise_reject_no_post_witness :
    parseNOISE (trimA ("NOISE abc -5".data)) = none ∧
    postsOf (noiseLoopStep ("NOISE abc -5".data) 0 200) = [] :=
  noise_reject_no_post ("NOISE abc -5".data) 0 200 (Or.inr (by decide))

/-- Claim C3: every line reaching the State forwarder, recognized token or
not, leads to exactly one POST whose body splices the verbatim trimmed
line between the fixed `state` field delimiters. -/
theorem state_forward_verbatim (raw : List Char) (t code : ℤ) :
    postsOf (stateLoopStep raw t code) = [stateBody (trimA raw) t] ∧
    stateBody (trimA raw) t =
      "\x7b\"device_id\":\"esp32-s3-01\",\"state\":\"".data
        ++ (trimA raw ++ ("\",\"esp_epoch\":".data ++ (intToChars t ++ "\x7d".data))) := by
  constructor
  · by_cases h1 : trimA raw = "LED_ON".data <;>
    by_cases h2 : trimA raw = "LED_OFF".data <;>
    cases hc : classifyOk code <;>
      simp [stateLoopStep, postEventEffects, postsOf, h1, h2, hc]
  · simp [stateBody, DEVICE_ID_state]

/-- Counterexample to claim C4 as stated: an empty line still triggers a
POST in the State variant, whose loop has no empty-line guard. -/
theorem empty_line_state_posts_counterexample :
    trimA [] = [] ∧ postsOf (stateLoopStep [] 0 200) ≠ [] := by decide

/-- Claim C4 (amended): a line that is empty after trimming produces no
effects and no POST in the Noise variant; the State variant still
forwards it, attempting exactly one POST with an empty `state` field. -/
theorem empty_line_behavior (raw : List Char) (t code : ℤ) (h : trimA raw = []) :
    noiseLoopStep raw t code = [] ∧
    postsOf (stateLoopStep raw t code) = [stateBody [] t] := by
  have h1 : ¬ (([] : List Char) = "LED_ON".data) := by decide
  have h2 : ¬ (([] : List Char) = "LED_OFF".data) := by decide
  constructor
  · simp [noiseLoopStep, h]
  · cases hc : classifyOk code <;>
    simp [stateLoopStep, postEventEffects, postsOf, h, h1, h2, hc]

/-- Witness for the amended C4 at a whitespace-only line. -/
theorem empty_line_behavior_witness :
    noiseLoopStep (" ".data) 7 99 = [] ∧
    postsOf (stateLoopStep (" ".data) 7 99) = [stateBody [] 7] :=
  empty_line_behavior (" ".data) 7 99 (by decide)

/-- Claim C5: over the return codes a POST attempt can produce (negative
sentinels from the client, or an HTTP status, which is at least 100), the
sketches' success test `code > 0 && code < 400` classifies into exactly
the three buckets: success iff the status lies in 100..399, remote
failure (status at least 400) classified as failure with the code
surfaced as-is, and local/transport failure (negative sentinel, covering
the `-1000` begin-failure code and library timeout codes) classified as
failure. -/
theorem classify_buckets (code : ℤ) (h : code < 0 ∨ 100 ≤ code) :
    (classifyOk code = true ↔ 100 ≤ code ∧ code ≤ 399) ∧
    (400 ≤ code → classifyOk code = false) ∧
    (code < 0 → classifyOk code = false) := by
  simp only [classifyOk, decide_eq_true_eq, decide_eq_false_iff_not]
  omega

/-- Witness for C5 at the codes 200, 404 and -1000. -/
theorem classify_buckets_witness :
    classifyOk 200 = true ∧ classifyOk 404 = false ∧ classifyOk (-1000) = false :=
  ⟨(classify_buckets 200 (Or.inr (by norm_num))).1.mpr (by norm_num),
   (classify_buckets 404 (Or.inr (by norm_num))).2.1 (by norm_num),
   (classify_buckets (-1000) (Or.inl (by norm_num))).2.2 (by norm_num)⟩

/-- Claim C6: on a recognized control token the State sketch fires the LED
side effect exactly once, as the very first effect, strictly before the
Wi-Fi readiness check and the POST, and independently of the network
outcome `code`. -/
theorem led_dispatch (raw : List Char) (t code : ℤ)
    (h : trimA raw = "LED_ON".data ∨ trimA raw = "LED_OFF".data) :
    stateLoopStep raw t code =
      (if trimA raw = "LED_ON".data then Effect.ledOn else Effect.ledOff)
        :: Effect.ensureWifi :: Effect.post (stateBody (trimA raw) t)
        :: [if classifyOk code then Effect.logOk else Effect.logErr] := by
  rcases h with h | h
  · have hne : ¬ (trimA raw = "LED_OFF".data) := by rw [h]; decide
    simp [stateLoopStep, postEventEffects, h, hne]
  · have hne : ¬ (trimA raw = "LED_ON".data) := by rw [h]; decide
    simp [stateLoopStep, postEventEffects, h, hne]

/-- Witness for C6: `LED_ON` with a failing network outcome still fires the
LED first. -/
theorem led_dispatch_witness :
    stateLoopStep ("LED_ON".data) 0 (-1000) =
      [Effect.ledOn, Effect.ensureWifi, Effect.post (stateBody ("LED_ON".data) 0),
        Effect.logErr] :=
  (led_dispatch ("LED_ON".data) 0 (-1000) (Or.inl (by decide))).trans (by decide)

/-- Claim C7: the scenario line `NOISE 1234 -12.34` parses to duration 1234
and peak -12.34 (the rational -1234/100), and the loop submits exactly the
body with the fixed field order and the epoch `t` sampled at send time. -/
theorem noise_scenario (t code : ℤ) :
    parseNOISE (trimA ("NOISE 1234 -12.34".data)) = some (1234, mkRat (-1234) 100) ∧
    noiseLoopStep ("NOISE 1234 -12.34".data) t code =
      Effect.ledOn :: Effect.ensureWifi
        :: Effect.post (noiseBody 1234 (mkRat (-1234) 100) t)
        :: [if classifyOk code then Effect.logOk else Effect.logErr] ++ [Effect.ledOff] ∧
    noiseBody 1234 (mkRat (-1234) 100) t =
      "\x7b\"device_id\":\"esp32-01\",\"duration_ms\":1234,\"peak_dbfs\":-12.34,\"esp_epoch\":".data
        ++ (intToChars t ++ "\x7d".data) := by
  refine ⟨by decide, ?_, ?_⟩
  · have h1 : trimA ("NOISE 1234 -12.34".data) = "NOISE 1234 -12.34".data := by decide
    have h2 : parseNOISE ("NOISE 1234 -12.34".data) = some (1234, mkRat (-1234) 100) := by
      decide
    have h3 : ¬ ("NOISE 1234 -12.34".data = ([] : List Char)) := by decide
    simp [noiseLoopStep, postNoiseEffects, h1, h2, h3]
  · have hf : floatToChars2 (mkRat (-1234) 100) = "-12.34".data := by decide
    have hd : intToChars 1234 = "1234".data := by decide
    simp [noiseBody, DEVICE_ID_noise, hf, hd]

/-- The polling kernel never returns while every status read fails. -/
theorem ensureWifiAux_none (status : ℕ → Bool) (h : ∀ n, status n = false) :
    ∀ fuel i, ensureWifiAux status i fuel = none := by
  intro fuel
  induction fuel with
  | zero => intro i; simp [ensureWifiAux, h i]
  | succ f ih => intro i; simp [ensureWifiAux, h i, ih (i + 1)]

/-- The polling kernel returns at the first successful status read, given
enough fuel to reach it. -/
theorem ensureWifiAux_first (status : ℕ → Bool) :
    ∀ fuel i k, i ≤ k → status k = true → (∀ j, i ≤ j → j < k → status j = false) →
      k ≤ i + fuel → ensureWifiAux status i fuel = some k := by
  intro fuel
  induction fuel with
  | zero =>
    intro i k hik hk hmin hb
    have hki : k = i := by omega
    subst hki
    simp [ensureWifiAux, hk]
  | succ f ih =>
    intro i k hik hk hmin hb
    by_cases hi : i = k
    · subst hi; simp [ensureWifiAux, hk]
    · have hfi : status i = false := hmin i le_rfl (by omega)
      simp [ensureWifiAux, hfi]
      exact ih (i + 1) k (by omega) hk (fun j hj1 hj2 => hmin j (by omega) hj2) (by omega)

/-- Claim C8: `ensureWifi` returns immediately (after the very first status
read) when the station is already associated; when the status never
reports association it never returns, for every finite poll budget; and
when association first succeeds at read `k` it returns exactly then,
polling with the fixed short delay and no upper bound on iterations. -/
theorem ensureWifi_behavior (status : ℕ → Bool) :
    (status 0 = true → ∀ fuel, ensureWifiPolls status fuel = some 0) ∧
    ((∀ n, status n = false) → ∀ fuel, ensureWifiPolls status fuel = none) ∧
    (∀ k, status k = true → (∀ j, j < k → status j = false) → ∀ fuel, k ≤ fuel →
      ensureWifiPolls status fuel = some k) := by
  refine ⟨?_, ?_, ?_⟩
  · intro h fuel; simp [ensureWifiPolls, h]
  · intro h fuel; simp [ensureWifiPolls, h 0, ensureWifiAux_none status h]
  · intro k hk hmin fuel hfb
    cases k with
    | zero => simp [ensureWifiPolls, hk]
    | succ m =>
      have h0 : status 0 = false := hmin 0 (Nat.succ_pos m)
      simp [ensureWifiPolls, h0]
      exact ensureWifiAux_first status fuel 1 (m + 1) (by omega) hk
        (fun j hj1 hj2 => hmin j hj2) (by omega)

/-- Witness for C8: already-associated, never-associated, and
first-associated-at-read-2 status streams. -/
theorem ensureWifi_behavior_witness :
    ensureWifiPolls (fun _ => true) 0 = some 0 ∧
    ensureWifiPolls (fun _ => false) 5 = none ∧
    ensureWifiPolls (fun n => decide (n = 2)) 3 = some 2 :=
  ⟨(ensureWifi_behavior (fun _ => true)).1 rfl 0,
   (ensureWifi_behavior (fun _ => false)).2.1 (fun _ => rfl) 5,
   (ensureWifi_behavior (fun n => decide (n = 2))).2.2 2 (by decide) (by decide) 3
     (by decide)⟩

/-- Claim C9: see `parseNOISE_isSome_iff` — acceptance is exactly the
prefix test (so `NOISEX 12 3.5` is accepted, with duration 12 and peak
7/2) together with two spaces and a positive leading-integer duration
parse (so `NOISE 12abc -5` is accepted with duration 12). -/
theorem parseNOISE_acceptance :
    (∀ line, (parseNOISE line).isSome = true ↔ specAccepts line) ∧
    parseNOISE ("NOISEX 12 3.5".data) = some (12, mkRat 7 2) ∧
    parseNOISE ("NOISE 12abc -5".data) = some (12, -5) :=
  ⟨parseNOISE_isSome_iff, by decide, by decide⟩

/-- Claim C10: the bodies are built by raw concatenation with no escaping,
so the State line `a"b` (which contains a double quote) is forwarded in a
body that is not a valid JSON object at all — the unescaped quote
terminates the `state` string early and the parse fails. -/
theorem state_body_not_json :
    '"' ∈ ("a\"b".data) ∧
    postsOf (stateLoopStep ("a\"b".data) 5 200) = [stateBody ("a\"b".data) 5] ∧
    jParseObj (stateBody ("a\"b".data) 5) = none := by decide

end Shaman
